import Mathlib

/-!
Shallow embedding of the graph-hopper social-graph state engine.

The definitions below are translated from the TypeScript sources of the
repository:

* data model: `src/src/types/index.ts` (`GraphNode`, `GraphEdge`, `GraphData`);
* navigation / pruning: `handleSelectNode` in `src/unnamed/part_003`
  (the latest `GraphProvider` revision, lines 671-793), including the
  reset prune (lines 688-724) and the truncate prune (lines 735-767);
* connection sync: the synchronous phase of `loadFollowersForNode` in
  `src/unnamed/part_003` (lines 203-332), whose `setGraph` updater adds
  placeholder nodes and edges for the followed pubkeys;
* the duplicate-edge check of the earlier `GraphProvider` revision
  (`src/src/components/GraphProvider.tsx`, lines 156-168);
* the notes pipeline guard of `loadNotesForNode` in `src/unnamed/part_003`
  (lines 96-173);
* the trust-score cache `src/unnamed/part_009` (`cacheTrustScores`,
  `getCachedTrustScores`, lines 185-250 of the concatenated file).

JavaScript numbers that only flow through the code unchanged (trust
scores) are modelled as rationals; timestamps (`Date.now()`) as integers;
JS `Map` / plain-object dictionaries as association lists in insertion
order; JS `Set` as a list queried only through membership.  Asynchronous
fetches are modelled by passing their outcome as an explicit argument.
-/

/-- Profile metadata of a nostr identity (`NostrProfile` in
`src/src/types/index.ts`).  Every field the modelled code writes is a
string; fields are filled with `''` defaults by the profile parser. -/
structure NostrProfile where
  name : String
  displayName : String
  about : String
  picture : String
  banner : String
  website : String
  nip05 : String
deriving DecidableEq, Repr

/-- Node of the social graph (`GraphNode` in `src/src/types/index.ts`).
The rendering-only optional fields `size`, `x`, `y`, `image` are omitted:
none of the modelled operations reads or writes them.  `isCurrentUser` is
optional in TypeScript with `undefined` read as `false`. -/
structure GraphNode where
  id : String
  label : String
  color : String
  isCurrentUser : Bool := false
  profile : Option NostrProfile := none
  trustScore : Option ℚ := none
deriving DecidableEq, Repr

/-- Edge of the social graph (`GraphEdge` in `src/src/types/index.ts`).
`size` and `color` are optional in TypeScript but every modelled
construction site supplies them (`size: 1`, `color: '#ccc'`). -/
structure GraphEdge where
  id : String
  source : String
  target : String
  size : Nat
  color : String
deriving DecidableEq, Repr

/-- Snapshot of the graph store (`GraphData` in `src/src/types/index.ts`). -/
structure GraphData where
  nodes : List GraphNode
  edges : List GraphEdge
deriving DecidableEq, Repr

/-- State touched by `handleSelectNode`: the graph store, the currently
selected node and the navigation stack (React state of `GraphProvider`,
`src/unnamed/part_003` lines 40-52). -/
structure ProviderState where
  graph : GraphData
  selectedNode : Option GraphNode
  navigationStack : List GraphNode
deriving DecidableEq, Repr

/-- Insertion into a JS `Set` of strings, modelled on a list: `Set.add`
is a no-op when the element is already present. -/
def addId (acc : List String) (x : String) : List String :=
  if acc.contains x then acc else acc ++ [x]

/-- Accumulation step of the reset prune (`src/unnamed/part_003` lines
705-708): for each edge incident to the selected root, the opposite
endpoint is added to `directConnectionIds`. -/
def resetIdStep (nid : String) (acc : List String) (e : GraphEdge) : List String :=
  let acc1 := if e.source == nid then addId acc e.target else acc
  if e.target == nid then addId acc1 e.source else acc1

/-- Reset prune of `handleSelectNode` (`src/unnamed/part_003` lines
688-724): when the current user is selected, the graph is rebuilt from
the selected node itself, the nodes directly connected to it, and the
edges incident to it. -/
def resetPrune (node : GraphNode) (prevGraph : GraphData) : GraphData :=
  let directEdges := prevGraph.edges.filter fun e =>
    e.source == node.id || e.target == node.id
  let directConnectionIds := directEdges.foldl (resetIdStep node.id) [node.id]
  let directNodes := prevGraph.nodes.filter fun n => directConnectionIds.contains n.id
  { nodes := node :: (directNodes.filter fun n => n.id != node.id)
    edges := directEdges }

/-- Accumulation step of the truncate prune (`src/unnamed/part_003` lines
751-754): both endpoints of every relevant edge are added to
`connectedNodeIds`. -/
def truncIdStep (acc : List String) (e : GraphEdge) : List String :=
  addId (addId acc e.source) e.target

/-- Truncate prune of `handleSelectNode` (`src/unnamed/part_003` lines
735-767): keep the edges with at least one endpoint on the (already
truncated) navigation stack, and the nodes that are on the stack or an
endpoint of such an edge. -/
def truncatePrune (newStack : List GraphNode) (prevGraph : GraphData) : GraphData :=
  let stackNodeIds := newStack.map fun n => n.id
  let relevantEdges := prevGraph.edges.filter fun e =>
    stackNodeIds.contains e.source || stackNodeIds.contains e.target
  let connectedNodeIds := relevantEdges.foldl truncIdStep stackNodeIds
  { nodes := prevGraph.nodes.filter fun n => connectedNodeIds.contains n.id
    edges := relevantEdges }

/-- Guard of `handleSelectNode` (`src/unnamed/part_003` lines 673-676):
`node && selectedNode && node.id === selectedNode.id`. -/
def sameAsSelected (st : ProviderState) (n : GraphNode) : Bool :=
  match st.selectedNode with
  | some s => n.id == s.id
  | none => false

/-- JS `Array.prototype.findIndex`, with the not-found result `-1`
modelled as `none`. -/
def findIndex (p : α → Bool) : List α → Option Nat
  | [] => none
  | a :: l => if p a then some 0 else (findIndex p l).map (· + 1)

/-- Synchronous state transition of `handleSelectNode`
(`src/unnamed/part_003` lines 671-793): guard against re-selecting the
selected node, then reset (current user), truncate (node already on the
stack) or push (new node).  The asynchronous notes / follower / trust
loads the handler fires afterwards do not modify these fields
synchronously and are modelled separately. -/
def handleSelectNode (st : ProviderState) (node : Option GraphNode) : ProviderState :=
  match node with
  | none => { st with selectedNode := none }
  | some n =>
    if sameAsSelected st n then st
    else if n.isCurrentUser then
      { graph := resetPrune n st.graph
        selectedNode := some n
        navigationStack := [n] }
    else
      match findIndex (fun m => m.id == n.id) st.navigationStack with
      | some nodeIndex =>
        let newStack := st.navigationStack.take (nodeIndex + 1)
        { graph := truncatePrune newStack st.graph
          selectedNode := some n
          navigationStack := newStack }
      | none =>
        { graph := st.graph
          selectedNode := some n
          navigationStack := st.navigationStack ++ [n] }

/-- Iterated selection: a finite sequence of `setSelectedNode` calls. -/
def selectSequence (st : ProviderState) (calls : List (Option GraphNode)) : ProviderState :=
  calls.foldl handleSelectNode st

/-- Placeholder node created by `loadFollowersForNode` for a followed
pubkey not yet in the graph (`src/unnamed/part_003` lines 304-310). -/
def placeholderNode (followedPubkey : String) : GraphNode :=
  { id := followedPubkey
    label := "Loading..."
    color := "#64748B"
    isCurrentUser := false }

/-- Edge record pushed by `loadFollowersForNode` (`src/unnamed/part_003`
lines 320-326): the id is the directional `pubkey + '-' + followedPubkey`. -/
def followsEdge (pubkey followedPubkey : String) : GraphEdge :=
  { id := pubkey ++ "-" ++ followedPubkey
    source := pubkey
    target := followedPubkey
    size := 1
    color := "#ccc" }

/-- Body of the `forEach` in the `setGraph` updater of
`loadFollowersForNode` (`src/unnamed/part_003` lines 297-328): skip
falsy pubkeys, add a placeholder node when absent, then add the edge
`pubkey -> followedPubkey` unless an edge with the same derived id
already exists. -/
def mergeFollowersStep (pubkey : String) (g : GraphData) (followedPubkey : String) : GraphData :=
  if followedPubkey == "" then g
  else
    let g1 :=
      if g.nodes.any fun n => n.id == followedPubkey then g
      else { g with nodes := g.nodes ++ [placeholderNode followedPubkey] }
    let edgeId := pubkey ++ "-" ++ followedPubkey
    if g1.edges.any fun e => e.id == edgeId then g1
    else { g1 with edges := g1.edges ++ [followsEdge pubkey followedPubkey] }

/-- Synchronous merge phase of `loadFollowersForNode`
(`src/unnamed/part_003` lines 289-332): fold the step over the (already
capped) list of followed pubkeys. -/
def mergeFollowers (pubkey : String) (limitedFollowedPubkeys : List String)
    (prevGraph : GraphData) : GraphData :=
  limitedFollowedPubkeys.foldl (mergeFollowersStep pubkey) prevGraph

/-- Edge insertion of the earlier `GraphProvider` revision
(`src/src/components/GraphProvider.tsx` lines 156-168): the duplicate
check looks in both directions, while the stored edge record is the same
directional one. -/
def tsxAddEdge (nodeId followedPubkey : String) (edges : List GraphEdge) : List GraphEdge :=
  if edges.any fun e =>
      (e.source == nodeId && e.target == followedPubkey) ||
      (e.source == followedPubkey && e.target == nodeId) then edges
  else edges ++ [followsEdge nodeId followedPubkey]

/-- Outcome of the contact-list fetch inside `loadFollowersForNode`:
the subscription may throw, yield no kind-3 event before the 5 s
timeout, or deliver a contact-list event with the given tags. -/
inductive FetchOutcome where
  | threw
  | noEvent
  | success (tags : List (List String))
deriving DecidableEq, Repr

/-- Slice of the provider state read and written by the synchronous part
of `loadFollowersForNode`: the graph store, the per-identity error flag
and the loading flag. -/
structure LoadState where
  graph : GraphData
  error : Option String
  loading : Bool
deriving DecidableEq, Repr

/-- Cap on the number of followed identities materialised per sync
(`maxFollowersToLoad`, `src/unnamed/part_003` line 280). -/
def maxFollowersToLoad : Nat := 50

/-- Indexing into a nostr tag; a missing entry (JS `undefined`) is
modelled as the empty string, which is equally falsy downstream. -/
def tagValue (tag : List String) (i : Nat) : String :=
  tag.getD i ""

/-- Extraction of the followed pubkeys from a kind-3 event
(`src/unnamed/part_003` lines 264-268): keep the `p` tags and read their
second entry. -/
def followedPubkeysOf (tags : List (List String)) : List String :=
  (tags.filter fun tag => tagValue tag 0 == "p").map fun tag => tagValue tag 1

/-- Synchronous phase of `loadFollowersForNode` (`src/unnamed/part_003`
lines 203-332): the empty-pubkey guard, the already-loading guard, then
one of the three fetch outcomes.  A thrown fetch sets the error flag
(line 461); a missing contact list returns silently (lines 255-261);
a delivered contact list is capped at `maxFollowersToLoad` and merged
into the graph, leaving `loading` set for the asynchronous profile
phase. -/
def loadFollowersForNodeSync (pubkey : String) (outcome : FetchOutcome)
    (st : LoadState) : LoadState :=
  if pubkey == "" then st
  else if st.loading then st
  else
    let st1 : LoadState := { st with loading := true }
    match outcome with
    | .threw => { st1 with error := some "Failed to load followers", loading := false }
    | .noEvent => { st1 with loading := false }
    | .success tags =>
      let followedPubkeys := followedPubkeysOf tags
      if followedPubkeys.length == 0 then { st1 with loading := false }
      else
        { st1 with
          graph := mergeFollowers pubkey
            (followedPubkeys.take maxFollowersToLoad) st1.graph }

/-- Node-before-edge invariant of the spec: every edge whose source is
`f` has a node carrying its target id. -/
def edgeTargetsPresent (f : String) (g : GraphData) : Prop :=
  ∀ e ∈ g.edges, e.source = f → ∃ n ∈ g.nodes, n.id = e.target

/-- State of the notes pipeline of `src/unnamed/part_003`:
`notesLoadedForNodeRef` (line 65), the active subscription ref (line 64,
identified here by the serial number of the fetch that opened it) and a
counter of the underlying fetches/subscriptions issued. -/
structure NotesState where
  loadedFor : Option String
  activeSub : Option Nat
  fetchCount : Nat
deriving DecidableEq, Repr

/-- Synchronous part of `loadNotesForNode` up to its first suspension
(`src/unnamed/part_003` lines 96-137): skip when notes for `nodeId` were
already loaded, otherwise stop any active subscription and open a new
one (one underlying fetch). -/
def loadNotesStart (nodeId : String) (s : NotesState) : NotesState :=
  if s.loadedFor == some nodeId then s
  else
    { loadedFor := s.loadedFor
      activeSub := some s.fetchCount
      fetchCount := s.fetchCount + 1 }

/-- Completion of `loadNotesForNode` (`src/unnamed/part_003` line 165):
only after the awaited EOSE/timeout is `notesLoadedForNodeRef` set. -/
def loadNotesFinish (nodeId : String) (s : NotesState) : NotesState :=
  { s with loadedFor := some nodeId }

/-- Payload persisted by the trust-score cache (`CachedTrustScores` in
`src/unnamed/part_009`): the scores dictionary in insertion order plus
the write timestamp. -/
structure CachedTrustScores where
  scores : List (String × ℚ)
  timestamp : Int
deriving DecidableEq, Repr

/-- Cache expiry window: 7 days in milliseconds (`CACHE_EXPIRATION`). -/
def CACHE_EXPIRATION : Int := 1000 * 60 * 60 * 24 * 7

/-- Assignment `obj[k] = v` on a JS plain object modelled as an
association list in key-insertion order. -/
def recordSet (obj : List (String × ℚ)) (k : String) (v : ℚ) : List (String × ℚ) :=
  if obj.any fun p => p.1 == k then
    obj.map fun p => if p.1 == k then (k, v) else p
  else obj ++ [(k, v)]

/-- Conversion of the scores `Map` to a plain object before
serialisation (`cacheTrustScores`, `src/unnamed/part_009`). -/
def scoresToRecord (scores : List (String × ℚ)) : List (String × ℚ) :=
  scores.foldl (fun obj kv => recordSet obj kv.1 kv.2) []

/-- Writing the trust-score cache (`cacheTrustScores` in
`src/unnamed/part_009`): the stored entry is replaced by the serialised
scores stamped with the current time. -/
def cacheTrustScores (scores : List (String × ℚ)) (now : Int) : Option CachedTrustScores :=
  some { scores := scoresToRecord scores, timestamp := now }

/-- Reading the trust-score cache (`getCachedTrustScores` in
`src/unnamed/part_009`): a missing entry yields an empty map; an entry
older than `CACHE_EXPIRATION` is removed and yields an empty map;
otherwise the stored scores are returned.  The result pairs the stored
entry after the call with the returned map. -/
def getCachedTrustScores (stored : Option CachedTrustScores) (now : Int) :
    Option CachedTrustScores × List (String × ℚ) :=
  match stored with
  | none => (none, [])
  | some parsedData =>
    if now - parsedData.timestamp > CACHE_EXPIRATION then (none, [])
    else (some parsedData, parsedData.scores)

/-- Fixture node used by the concrete witnesses below. -/
def mkNode (i : String) : GraphNode :=
  { id := i, label := i, color := "#888888" }

/-- Fixture edge used by the concrete witnesses below, following the
directional id convention of the source. -/
def mkEdge (s t : String) : GraphEdge :=
  { id := s ++ "-" ++ t, source := s, target := t, size := 1, color := "#ccc" }

lemma mem_addId {acc : List String} {x y : String} :
    y ∈ addId acc x ↔ y ∈ acc ∨ y = x := by
  unfold addId
  by_cases h : acc.contains x = true
  · rw [if_pos h]
    refine ⟨fun hy => Or.inl hy, fun hy => ?_⟩
    rcases hy with hy | rfl
    · exact hy
    · exact List.elem_iff.mp h
  · rw [if_neg h]
    simp [List.mem_append]

lemma mem_foldl_truncIdStep (edges : List GraphEdge) (acc : List String) (y : String) :
    y ∈ edges.foldl truncIdStep acc ↔
      y ∈ acc ∨ ∃ e ∈ edges, y = e.source ∨ y = e.target := by
  induction edges generalizing acc with
  | nil => simp
  | cons e es ih =>
    rw [List.foldl_cons, ih]
    unfold truncIdStep
    rw [mem_addId, mem_addId]
    simp only [List.mem_cons]
    constructor
    · rintro (((hy | hy) | hy) | ⟨a, ha, hy⟩)
      · exact Or.inl hy
      · exact Or.inr ⟨e, Or.inl rfl, Or.inl hy⟩
      · exact Or.inr ⟨e, Or.inl rfl, Or.inr hy⟩
      · exact Or.inr ⟨a, Or.inr ha, hy⟩
    · rintro (hy | ⟨a, (rfl | ha), hy⟩)
      · exact Or.inl (Or.inl (Or.inl hy))
      · rcases hy with hy | hy
        · exact Or.inl (Or.inl (Or.inr hy))
        · exact Or.inl (Or.inr hy)
      · exact Or.inr ⟨a, ha, hy⟩

lemma mem_resetIdStep {nid : String} {acc : List String} {e : GraphEdge} {y : String} :
    y ∈ resetIdStep nid acc e ↔
      y ∈ acc ∨ (e.source = nid ∧ y = e.target) ∨ (e.target = nid ∧ y = e.source) := by
  unfold resetIdStep
  by_cases h1 : e.source = nid <;> by_cases h2 : e.target = nid <;>
    simp [h1, h2, mem_addId]

lemma mem_foldl_resetIdStep (nid : String) (edges : List GraphEdge)
    (acc : List String) (y : String) :
    y ∈ edges.foldl (resetIdStep nid) acc ↔
      y ∈ acc ∨ ∃ e ∈ edges,
        (e.source = nid ∧ y = e.target) ∨ (e.target = nid ∧ y = e.source) := by
  induction edges generalizing acc with
  | nil => simp
  | cons e es ih =>
    rw [List.foldl_cons, ih, mem_resetIdStep]
    simp only [List.mem_cons]
    constructor
    · rintro ((hy | hy) | ⟨a, ha, hy⟩)
      · exact Or.inl hy
      · exact Or.inr ⟨e, Or.inl rfl, hy⟩
      · exact Or.inr ⟨a, Or.inr ha, hy⟩
    · rintro (hy | ⟨a, (rfl | ha), hy⟩)
      · exact Or.inl (Or.inl hy)
      · exact Or.inl (Or.inr hy)
      · exact Or.inr ⟨a, ha, hy⟩

lemma findIndex_eq_none_iff {p : α → Bool} {l : List α} :
    findIndex p l = none ↔ ∀ a ∈ l, p a = false := by
  induction l with
  | nil => simp [findIndex]
  | cons a l ih =>
    by_cases h : p a = true
    · simp only [findIndex, if_pos h]
      constructor
      · intro hc; cases hc
      · intro hall
        have := hall a (List.mem_cons_self a l)
        rw [h] at this; cases this
    · have h' : p a = false := by simpa using h
      simp only [findIndex, if_neg h, Option.map_eq_none', ih]
      constructor
      · intro hall b hb
        rcases List.mem_cons.mp hb with rfl | hb
        · exact h'
        · exact hall b hb
      · intro hall b hb
        exact hall b (List.mem_cons_of_mem a hb)

lemma handleSelectNode_skip {st : ProviderState} {n : GraphNode}
    (h : sameAsSelected st n = true) :
    handleSelectNode st (some n) = st := by
  simp [handleSelectNode, h]

lemma handleSelectNode_reset {st : ProviderState} {n : GraphNode}
    (h : sameAsSelected st n = false) (hc : n.isCurrentUser = true) :
    handleSelectNode st (some n) =
      { graph := resetPrune n st.graph
        selectedNode := some n
        navigationStack := [n] } := by
  simp [handleSelectNode, h, hc]

lemma handleSelectNode_trunc {st : ProviderState} {n : GraphNode} {k : Nat}
    (h : sameAsSelected st n = false) (hc : n.isCurrentUser = false)
    (hk : findIndex (fun m => m.id == n.id) st.navigationStack = some k) :
    handleSelectNode st (some n) =
      { graph := truncatePrune (st.navigationStack.take (k + 1)) st.graph
        selectedNode := some n
        navigationStack := st.navigationStack.take (k + 1) } := by
  simp [handleSelectNode, h, hc, hk]

lemma handleSelectNode_push {st : ProviderState} {n : GraphNode}
    (h : sameAsSelected st n = false) (hc : n.isCurrentUser = false)
    (hk : findIndex (fun m => m.id == n.id) st.navigationStack = none) :
    handleSelectNode st (some n) =
      { graph := st.graph
        selectedNode := some n
        navigationStack := st.navigationStack ++ [n] } := by
  simp [handleSelectNode, h, hc, hk]

lemma mergeFollowersStep_append (p fp : String) (g : GraphData) :
    ∃ ns es, (mergeFollowersStep p g fp).nodes = g.nodes ++ ns ∧
      (mergeFollowersStep p g fp).edges = g.edges ++ es := by
  unfold mergeFollowersStep
  by_cases h0 : (fp == "") = true
  · exact ⟨[], [], by simp [h0], by simp [h0]⟩
  · rw [if_neg h0]
    by_cases h1 : (g.nodes.any fun n => n.id == fp) = true <;>
      by_cases h2 : (g.edges.any fun e => e.id == p ++ "-" ++ fp) = true
    · exact ⟨[], [], by simp [h1, h2], by simp [h1, h2]⟩
    · exact ⟨[], [followsEdge p fp], by simp [h1, h2], by simp [h1, h2]⟩
    · exact ⟨[placeholderNode fp], [], by simp [h1, h2], by simp [h1, h2]⟩
    · exact ⟨[placeholderNode fp], [followsEdge p fp], by simp [h1, h2], by simp [h1, h2]⟩

lemma mergeFollowers_append (p : String) (l : List String) (g : GraphData) :
    ∃ ns es, (mergeFollowers p l g).nodes = g.nodes ++ ns ∧
      (mergeFollowers p l g).edges = g.edges ++ es := by
  induction l generalizing g with
  | nil => exact ⟨[], [], by simp [mergeFollowers], by simp [mergeFollowers]⟩
  | cons fp rest ih =>
    obtain ⟨ns1, es1, hn1, he1⟩ := mergeFollowersStep_append p fp g
    obtain ⟨ns2, es2, hn2, he2⟩ := ih (mergeFollowersStep p g fp)
    refine ⟨ns1 ++ ns2, es1 ++ es2, ?_, ?_⟩
    · show (mergeFollowers p rest (mergeFollowersStep p g fp)).nodes = _
      rw [hn2, hn1, List.append_assoc]
    · show (mergeFollowers p rest (mergeFollowersStep p g fp)).edges = _
      rw [he2, he1, List.append_assoc]

lemma mergeFollowersStep_idem (a b : String) (g : GraphData) :
    mergeFollowersStep a (mergeFollowersStep a g b) b = mergeFollowersStep a g b := by
  by_cases hb : (b == "") = true
  · simp [mergeFollowersStep, hb]
  · have hnodes : ((mergeFollowersStep a g b).nodes.any fun n => n.id == b) = true := by
      unfold mergeFollowersStep
      rw [if_neg hb]
      by_cases h1 : (g.nodes.any fun n => n.id == b) = true <;>
        by_cases h2 : (g.edges.any fun e => e.id == a ++ "-" ++ b) = true <;>
        simp [h1, h2, placeholderNode]
    have hedges : ((mergeFollowersStep a g b).edges.any fun e => e.id == a ++ "-" ++ b) = true := by
      unfold mergeFollowersStep
      rw [if_neg hb]
      by_cases h1 : (g.nodes.any fun n => n.id == b) = true <;>
        by_cases h2 : (g.edges.any fun e => e.id == a ++ "-" ++ b) = true <;>
        simp [h1, h2, followsEdge]
    conv_lhs => rw [mergeFollowersStep]
    rw [if_neg hb, if_pos hnodes, if_pos hedges]

lemma tsxAddEdge_swap_noop (a b : String) (es : List GraphEdge) :
    tsxAddEdge b a (tsxAddEdge a b es) = tsxAddEdge a b es := by
  have key : ((tsxAddEdge a b es).any fun e =>
      (e.source == b && e.target == a) || (e.source == a && e.target == b)) = true := by
    unfold tsxAddEdge
    by_cases h : (es.any fun e =>
        (e.source == a && e.target == b) || (e.source == b && e.target == a)) = true
    · rw [if_pos h]
      rcases List.any_eq_true.mp h with ⟨e, he, hcond⟩
      refine List.any_eq_true.mpr ⟨e, he, ?_⟩
      rcases Bool.or_eq_true_iff.mp hcond with hc | hc
      · exact Bool.or_eq_true_iff.mpr (Or.inr hc)
      · exact Bool.or_eq_true_iff.mpr (Or.inl hc)
    · rw [if_neg h]
      simp [followsEdge]
  conv_lhs => rw [tsxAddEdge]
  rw [if_pos key]

/-- C4 counterexample.  The claim says that merging the logical
connection between `a` and `b` once as `(a,b)` and once as `(b,a)`
leaves exactly one edge; in the `part_003` revision the dedup key is the
directional edge id, so the two calls store two edges. -/
theorem mergeEdge_undirected_dedup_counterexample :
    ¬ ((mergeFollowers "b" ["a"]
        (mergeFollowers "a" ["b"] { nodes := [], edges := [] })).edges.length = 1) := by
  decide

/-- C4 (amended).  Merging the same directed connection twice is
idempotent and leaves exactly one edge for the pair, and in the earlier
`GraphProvider.tsx` revision the duplicate check also catches the
reversed direction, so `(a,b)` followed by `(b,a)` stores one edge
there; only the `part_003` revision stores a second, reversed edge. -/
theorem mergeEdge_dedup_amended (a b : String) (g : GraphData) (es : List GraphEdge) :
    mergeFollowers a [b] (mergeFollowers a [b] g) = mergeFollowers a [b] g ∧
    tsxAddEdge b a (tsxAddEdge a b es) = tsxAddEdge a b es := by
  constructor
  · show mergeFollowersStep a (mergeFollowersStep a g b) b = mergeFollowersStep a g b
    exact mergeFollowersStep_idem a b g
  · exact tsxAddEdge_swap_noop a b es

/-- Fixture for the C7 counterexample: node `a` is the top (and only
entry) of the navigation stack, but no node is currently selected, as
after a deselection (`handleSelectNode` with `null`); the graph holds a
third node `c` not connected to the stack. -/
def stTopNotSelected : ProviderState :=
  { graph := { nodes := [mkNode "a", mkNode "b", mkNode "c"], edges := [mkEdge "a" "b"] }
    selectedNode := none
    navigationStack := [mkNode "a"] }

/-- C7 counterexample.  The claim says re-selecting the node at the top
of the navigation stack is a no-op on the stack and the graph.  The
guard in the code compares against `selectedNode`, not against the top
of the stack: with `a` on top but nothing selected, re-selecting `a`
runs the truncate branch and prunes node `c` from the graph. -/
theorem reselect_top_counterexample :
    stTopNotSelected.navigationStack.getLast? = some (mkNode "a") ∧
    (handleSelectNode stTopNotSelected (some (mkNode "a"))).graph ≠ stTopNotSelected.graph := by
  decide

/-- C7 (amended).  Re-selecting the currently selected node is a no-op:
the whole provider state, in particular the stack and the graph, is
unchanged.  When the top-of-stack node is not the selected one, the
truncate branch re-runs instead (see the counterexample). -/
theorem reselect_selected_noop (st : ProviderState) (x s : GraphNode)
    (hs : st.selectedNode = some s) (hid : x.id = s.id) :
    handleSelectNode st (some x) = st := by
  have hg : sameAsSelected st x = true := by
    simp [sameAsSelected, hs, hid]
  exact handleSelectNode_skip hg

/-- Witness for C7 (amended): re-selecting the selected node `a` of a
concrete state changes nothing. -/
theorem reselect_selected_noop_witness :
    handleSelectNode
      { graph := { nodes := [mkNode "a"], edges := [] }
        selectedNode := some (mkNode "a")
        navigationStack := [mkNode "a"] } (some (mkNode "a")) =
      { graph := { nodes := [mkNode "a"], edges := [] }
        selectedNode := some (mkNode "a")
        navigationStack := [mkNode "a"] } :=
  reselect_selected_noop _ (mkNode "a") (mkNode "a") rfl rfl

/-- C8 counterexample.  The claim says a connection-list fetch that
yields no contact-list event reports an error via the error flag; the
code logs and returns without touching the error flag. -/
theorem loadFollowers_noEvent_no_error :
    (loadFollowersForNodeSync "a" .noEvent
      { graph := { nodes := [], edges := [] }, error := none, loading := false }).error =
      none := by
  decide

/-- C8 (amended).  For a non-empty pubkey with no sync already running:
a thrown connection-list fetch sets the error flag and leaves the graph
store exactly as it was; a fetch that yields no contact-list event also
leaves the graph store unchanged, but reports no error (it returns
silently without setting the flag). -/
theorem loadFollowers_failure_amended (p : String) (hp : p ≠ "")
    (g : GraphData) (err0 : Option String) :
    (loadFollowersForNodeSync p .threw { graph := g, error := err0, loading := false }).graph = g ∧
    (loadFollowersForNodeSync p .threw { graph := g, error := err0, loading := false }).error =
      some "Failed to load followers" ∧
    (loadFollowersForNodeSync p .noEvent { graph := g, error := err0, loading := false }).graph = g ∧
    (loadFollowersForNodeSync p .noEvent { graph := g, error := err0, loading := false }).error =
      err0 := by
  have hp' : (p == "") = false := beq_eq_false_iff_ne.mpr hp
  refine ⟨?_, ?_, ?_, ?_⟩ <;> simp [loadFollowersForNodeSync, hp']

/-- Witness for C8 (amended), at a concrete pubkey and store. -/
theorem loadFollowers_failure_amended_witness :
    (loadFollowersForNodeSync "a" .threw
      { graph := { nodes := [mkNode "a"], edges := [] }, error := none, loading := false }).graph =
      { nodes := [mkNode "a"], edges := [] } ∧
    (loadFollowersForNodeSync "a" .threw
      { graph := { nodes := [mkNode "a"], edges := [] }, error := none, loading := false }).error =
      some "Failed to load followers" ∧
    (loadFollowersForNodeSync "a" .noEvent
      { graph := { nodes := [mkNode "a"], edges := [] }, error := none, loading := false }).graph =
      { nodes := [mkNode "a"], edges := [] } ∧
    (loadFollowersForNodeSync "a" .noEvent
      { graph := { nodes := [mkNode "a"], edges := [] }, error := none, loading := false }).error =
      none :=
  loadFollowers_failure_amended "a" (by decide) { nodes := [mkNode "a"], edges := [] } none

/-- C9 counterexample.  The claim says two `loadNotesForNode(x)` calls
issued before the first resolves perform exactly one underlying fetch.
The dedup ref `notesLoadedForNodeRef` is only written after the awaited
load completes, so the second call passes the guard and opens a second
subscription: two fetches are issued. -/
theorem loadNotes_inflight_counterexample :
    ¬ ((loadNotesStart "x" (loadNotesStart "x"
        { loadedFor := none, activeSub := none, fetchCount := 0 })).fetchCount = 1) := by
  decide

/-- C9 (amended).  A second `loadNotesForNode(x)` issued after the first
has completed is skipped by the guard and performs no further fetch,
while a second call issued while the first is still in flight issues a
second underlying fetch (the first subscription is stopped). -/
theorem loadNotes_dedup_amended (s : NotesState) (x : String) :
    loadNotesStart x (loadNotesFinish x (loadNotesStart x s)) =
      loadNotesFinish x (loadNotesStart x s) ∧
    (s.loadedFor ≠ some x →
      (loadNotesStart x (loadNotesStart x s)).fetchCount = s.fetchCount + 2) := by
  constructor
  · simp [loadNotesStart, loadNotesFinish]
  · intro h
    have hne : (s.loadedFor == some x) = false := beq_eq_false_iff_ne.mpr h
    simp [loadNotesStart, hne]

/-- Witness for C9 (amended), from the initial notes-pipeline state. -/
theorem loadNotes_dedup_amended_witness :
    loadNotesStart "x" (loadNotesFinish "x" (loadNotesStart "x"
      { loadedFor := none, activeSub := none, fetchCount := 0 })) =
      loadNotesFinish "x" (loadNotesStart "x"
        { loadedFor := none, activeSub := none, fetchCount := 0 }) ∧
    (loadNotesStart "x" (loadNotesStart "x"
      { loadedFor := none, activeSub := none, fetchCount := 0 })).fetchCount = 0 + 2 :=
  ⟨(loadNotes_dedup_amended { loadedFor := none, activeSub := none, fetchCount := 0 } "x").1,
   (loadNotes_dedup_amended { loadedFor := none, activeSub := none, fetchCount := 0 } "x").2
     (by decide)⟩

lemma foldl_recordSet_append (m : List (String × ℚ)) :
    ∀ acc : List (String × ℚ),
      (∀ kv ∈ m, ∀ pr ∈ acc, pr.1 ≠ kv.1) →
      (m.map Prod.fst).Nodup →
      m.foldl (fun obj kv => recordSet obj kv.1 kv.2) acc = acc ++ m := by
  induction m with
  | nil => intro acc _ _; simp
  | cons kv rest ih =>
    intro acc hdisj hm
    rw [List.foldl_cons]
    have hnot : (acc.any fun pr => pr.1 == kv.1) = false := by
      rw [List.any_eq_false]
      intro pr hpr
      simp only [beq_iff_eq]
      exact fun hc => hdisj kv (List.mem_cons_self kv rest) pr hpr hc
    have hrs : recordSet acc kv.1 kv.2 = acc ++ [kv] := by
      unfold recordSet
      rw [hnot]
      simp
    rw [hrs]
    have hm' : (rest.map Prod.fst).Nodup := (List.nodup_cons.mp (by simpa using hm)).2
    have hhead : kv.1 ∉ rest.map Prod.fst := (List.nodup_cons.mp (by simpa using hm)).1
    have hdisj' : ∀ kv' ∈ rest, ∀ pr ∈ acc ++ [kv], pr.1 ≠ kv'.1 := by
      intro kv' hkv' pr hpr
      rcases List.mem_append.mp hpr with h | h
      · exact hdisj kv' (List.mem_cons_of_mem kv hkv') pr h
      · rcases List.mem_singleton.mp h with rfl
        intro hc
        exact hhead (by
          rw [hc]
          exact List.mem_map.mpr ⟨kv', hkv', rfl⟩)
    rw [ih (acc ++ [kv]) hdisj' hm']
    simp

lemma scoresToRecord_eq_self (m : List (String × ℚ)) (hm : (m.map Prod.fst).Nodup) :
    scoresToRecord m = m := by
  have := foldl_recordSet_append m [] (by simp) hm
  simpa [scoresToRecord] using this

/-- C10.  Writing a scores map `m` with key-unique entries (a JS `Map`
never holds duplicate keys) and reading it back returns a map equal to
`m` while less than the 7-day expiry window has elapsed, and returns an
empty map — removing the cache entry — once the expiry window has
passed. -/
theorem trustScoreCache_roundtrip (m : List (String × ℚ))
    (hm : (m.map Prod.fst).Nodup) (t now : Int) :
    (now - t < CACHE_EXPIRATION →
      getCachedTrustScores (cacheTrustScores m t) now = (cacheTrustScores m t, m)) ∧
    (now - t > CACHE_EXPIRATION →
      getCachedTrustScores (cacheTrustScores m t) now = (none, [])) := by
  have hser : scoresToRecord m = m := scoresToRecord_eq_self m hm
  constructor
  · intro h
    have hnot : ¬ (now - t > CACHE_EXPIRATION) := by omega
    simp [getCachedTrustScores, cacheTrustScores, hser, hnot]
  · intro h
    simp [getCachedTrustScores, cacheTrustScores, hser, h]

/-- Witness for C10 at a one-entry map: read back unchanged 1000 ms
after the write, and empty one millisecond past the expiry window. -/
theorem trustScoreCache_roundtrip_witness :
    getCachedTrustScores (cacheTrustScores [("k", (1 : ℚ))] 0) 1000 =
      (cacheTrustScores [("k", (1 : ℚ))] 0, [("k", (1 : ℚ))]) ∧
    getCachedTrustScores (cacheTrustScores [("k", (1 : ℚ))] 0) (CACHE_EXPIRATION + 1) =
      (none, []) :=
  ⟨(trustScoreCache_roundtrip [("k", (1 : ℚ))] (by simp) 0 1000).1 (by decide),
   (trustScoreCache_roundtrip [("k", (1 : ℚ))] (by simp) 0 (CACHE_EXPIRATION + 1)).2
     (by decide)⟩

/-- C3.  A push transition (selected node is neither the current user
nor already on the stack) leaves the graph untouched, and any follower
merge it triggers only appends: node and edge counts never decrease and
no existing node or edge is removed. -/
theorem selectIdentity_push_monotone (st : ProviderState) (x : GraphNode)
    (hcu : x.isCurrentUser = false)
    (hnotin : ∀ m ∈ st.navigationStack, m.id ≠ x.id) :
    (handleSelectNode st (some x)).graph = st.graph ∧
    ∀ (p : String) (l : List String),
      st.graph.nodes.length ≤
        (mergeFollowers p l (handleSelectNode st (some x)).graph).nodes.length ∧
      st.graph.edges.length ≤
        (mergeFollowers p l (handleSelectNode st (some x)).graph).edges.length ∧
      (∀ n ∈ st.graph.nodes, n ∈ (mergeFollowers p l (handleSelectNode st (some x)).graph).nodes) ∧
      (∀ e ∈ st.graph.edges, e ∈ (mergeFollowers p l (handleSelectNode st (some x)).graph).edges) := by
  have hgraph : (handleSelectNode st (some x)).graph = st.graph := by
    by_cases hg : sameAsSelected st x = true
    · rw [handleSelectNode_skip hg]
    · have hg2 : sameAsSelected st x = false := by simpa using hg
      have hk : findIndex (fun m => m.id == x.id) st.navigationStack = none := by
        rw [findIndex_eq_none_iff]
        intro m hm
        exact beq_eq_false_iff_ne.mpr (hnotin m hm)
      rw [handleSelectNode_push hg2 hcu hk]
  refine ⟨hgraph, ?_⟩
  intro p l
  rw [hgraph]
  obtain ⟨ns, es, hn, he⟩ := mergeFollowers_append p l st.graph
  refine ⟨?_, ?_, ?_, ?_⟩
  · rw [hn]; simp
  · rw [he]; simp
  · intro n hmem; rw [hn]; exact List.mem_append_left _ hmem
  · intro e hmem; rw [he]; exact List.mem_append_left _ hmem

/-- Witness for C3: pushing the fresh node `x` onto a state whose stack
holds only `u` leaves the graph unchanged and a follower merge only
grows it. -/
theorem selectIdentity_push_monotone_witness :
    (handleSelectNode
      { graph := { nodes := [mkNode "u"], edges := [] }
        selectedNode := some (mkNode "u")
        navigationStack := [mkNode "u"] } (some (mkNode "x"))).graph =
      { nodes := [mkNode "u"], edges := [] } ∧
    ({ nodes := [mkNode "u"], edges := [] } : GraphData).nodes.length ≤
      (mergeFollowers "x" ["y"]
        (handleSelectNode
          { graph := { nodes := [mkNode "u"], edges := [] }
            selectedNode := some (mkNode "u")
            navigationStack := [mkNode "u"] } (some (mkNode "x"))).graph).nodes.length := by
  have h := selectIdentity_push_monotone
    { graph := { nodes := [mkNode "u"], edges := [] }
      selectedNode := some (mkNode "u")
      navigationStack := [mkNode "u"] } (mkNode "x") (by decide) (by decide)
  exact ⟨h.1, (h.2 "x" ["y"]).1⟩

lemma mergeFollowersStep_edges_cases (p fp : String) (g : GraphData) :
    (mergeFollowersStep p g fp).edges = g.edges ∨
    (mergeFollowersStep p g fp).edges = g.edges ++ [followsEdge p fp] := by
  unfold mergeFollowersStep
  by_cases h0 : (fp == "") = true
  · rw [if_pos h0]; exact Or.inl rfl
  · rw [if_neg h0]
    by_cases h1 : (g.nodes.any fun n => n.id == fp) = true <;>
      by_cases h2 : (g.edges.any fun e => e.id == p ++ "-" ++ fp) = true <;>
      simp [h1, h2]

lemma mergeFollowersStep_target_present (p fp : String) (g : GraphData)
    (h0 : (fp == "") = false) :
    ∃ n ∈ (mergeFollowersStep p g fp).nodes, n.id = fp := by
  have h0' : ¬ ((fp == "") = true) := by simp [h0]
  unfold mergeFollowersStep
  rw [if_neg h0']
  by_cases h1 : (g.nodes.any fun n => n.id == fp) = true
  · obtain ⟨n, hn, hbeq⟩ := List.any_eq_true.mp h1
    have hnid : n.id = fp := by simpa using hbeq
    by_cases h2 : (g.edges.any fun e => e.id == p ++ "-" ++ fp) = true <;>
      simp [h1, h2] <;> exact ⟨n, hn, hnid⟩
  · by_cases h2 : (g.edges.any fun e => e.id == p ++ "-" ++ fp) = true <;>
      simp [h1, h2, placeholderNode] <;>
      exact ⟨placeholderNode fp, Or.inr rfl, rfl⟩

lemma mergeFollowersStep_preserves_etp (f fp : String) (g : GraphData)
    (h : edgeTargetsPresent f g) :
    edgeTargetsPresent f (mergeFollowersStep f g fp) := by
  by_cases h0 : (fp == "") = true
  · simpa [mergeFollowersStep, h0] using h
  · have h0f : (fp == "") = false := by simpa using h0
    obtain ⟨ns, es, hn, he⟩ := mergeFollowersStep_append f fp g
    intro e hmem hsrc
    rcases mergeFollowersStep_edges_cases f fp g with hc | hc
    · rw [hc] at hmem
      obtain ⟨n, hnmem, hnid⟩ := h e hmem hsrc
      exact ⟨n, by rw [hn]; exact List.mem_append_left _ hnmem, hnid⟩
    · rw [hc] at hmem
      rcases List.mem_append.mp hmem with hold | hnew
      · obtain ⟨n, hnmem, hnid⟩ := h e hold hsrc
        exact ⟨n, by rw [hn]; exact List.mem_append_left _ hnmem, hnid⟩
      · rcases List.mem_singleton.mp hnew with rfl
        obtain ⟨n, hnmem, hnid⟩ := mergeFollowersStep_target_present f fp g h0f
        exact ⟨n, hnmem, hnid⟩

lemma mergeFollowers_preserves_etp (f : String) (l : List String) (g : GraphData)
    (h : edgeTargetsPresent f g) :
    edgeTargetsPresent f (mergeFollowers f l g) := by
  induction l generalizing g with
  | nil => exact h
  | cons fp rest ih =>
    show edgeTargetsPresent f (mergeFollowers f rest (mergeFollowersStep f g fp))
    exact ih _ (mergeFollowersStep_preserves_etp f fp g h)

/-- C5.  The synchronous merge phase of a connection sync for `f`
preserves the node-before-edge invariant: if every edge with source `f`
had its target node present before the call, the same holds after it —
in particular each newly added edge has its placeholder target node
added in the same update. -/
theorem syncConnections_node_before_edge (f : String) (outcome : FetchOutcome)
    (st : LoadState) (h : edgeTargetsPresent f st.graph) :
    edgeTargetsPresent f (loadFollowersForNodeSync f outcome st).graph := by
  unfold loadFollowersForNodeSync
  by_cases hp : (f == "") = true
  · simpa [hp] using h
  · rw [if_neg (by simpa using hp)]
    by_cases hl : st.loading = true
    · simpa [hl] using h
    · rw [if_neg (by simpa using hl)]
      match outcome with
      | .threw => exact h
      | .noEvent => exact h
      | .success tags =>
        by_cases hz : ((followedPubkeysOf tags).length == 0) = true
        · simpa [hz] using h
        · simpa [hz] using
            mergeFollowers_preserves_etp f ((followedPubkeysOf tags).take maxFollowersToLoad)
              st.graph h

/-- Witness for C5: syncing `f` against a store holding only the node
`f` (no edges, so the invariant holds vacuously) keeps the invariant
after two followed pubkeys are merged. -/
theorem syncConnections_node_before_edge_witness :
    edgeTargetsPresent "f"
      (loadFollowersForNodeSync "f" (.success [["p", "p1"], ["p", "p2"]])
        { graph := { nodes := [mkNode "f"], edges := [] }
          error := none, loading := false }).graph :=
  syncConnections_node_before_edge "f" (.success [["p", "p1"], ["p", "p2"]])
    { graph := { nodes := [mkNode "f"], edges := [] }, error := none, loading := false }
    (by intro e he; simp at he)

/-- Fixture current-user node, with the colour of the initial graph of
`src/unnamed/part_003` (line 594). -/
def mkUser (i : String) : GraphNode :=
  { id := i, label := i, color := "#4C8BF5", isCurrentUser := true }

lemma handleSelectNode_nodup (st : ProviderState) (o : Option GraphNode)
    (h : (st.navigationStack.map fun n => n.id).Nodup) :
    ((handleSelectNode st o).navigationStack.map fun n => n.id).Nodup := by
  match o with
  | none => simpa [handleSelectNode] using h
  | some n =>
    by_cases hg : sameAsSelected st n = true
    · rw [handleSelectNode_skip hg]; exact h
    · have hg2 : sameAsSelected st n = false := by simpa using hg
      by_cases hc : n.isCurrentUser = true
      · rw [handleSelectNode_reset hg2 hc]; simp
      · have hc2 : n.isCurrentUser = false := by simpa using hc
        cases hk : findIndex (fun m => m.id == n.id) st.navigationStack with
        | some k =>
          rw [handleSelectNode_trunc hg2 hc2 hk]
          dsimp only
          rw [List.map_take]
          exact h.sublist (List.take_sublist _ _)
        | none =>
          rw [handleSelectNode_push hg2 hc2 hk]
          dsimp only
          rw [List.map_append, List.nodup_append]
          have hnotmem : n.id ∉ st.navigationStack.map fun m => m.id := by
            intro hmem
            obtain ⟨m, hm, hmid⟩ := List.mem_map.mp hmem
            have hfalse := findIndex_eq_none_iff.mp hk m hm
            rw [hmid] at hfalse
            simp at hfalse
          refine ⟨h, by simp, ?_⟩
          simpa [List.disjoint_singleton] using hnotmem

lemma selectSequence_nodup (calls : List (Option GraphNode)) :
    ∀ st : ProviderState, (st.navigationStack.map fun n => n.id).Nodup →
      ((selectSequence st calls).navigationStack.map fun n => n.id).Nodup := by
  induction calls with
  | nil => intro st h; exact h
  | cons o rest ih =>
    intro st h
    show ((selectSequence (handleSelectNode st o) rest).navigationStack.map fun n => n.id).Nodup
    exact ih (handleSelectNode st o) (handleSelectNode_nodup st o h)

/-- C6.  For any finite sequence of selections starting from a stack
seeded with the focus identity, the stack never holds two entries with
the same identity key; and immediately after any reset transition (a
non-skipped selection of a current-user node) the stack is the singleton
whose only entry carries the focus identity key. -/
theorem stack_invariants (focus : GraphNode) (g0 : GraphData) (sel0 : Option GraphNode)
    (calls : List (Option GraphNode))
    (hwf : ∀ n : GraphNode, some n ∈ calls → n.isCurrentUser = true → n.id = focus.id) :
    ((selectSequence { graph := g0, selectedNode := sel0, navigationStack := [focus] }
        calls).navigationStack.map fun n => n.id).Nodup ∧
    ∀ (p q : List (Option GraphNode)) (n : GraphNode),
      calls = p ++ some n :: q →
      sameAsSelected
        (selectSequence { graph := g0, selectedNode := sel0, navigationStack := [focus] } p)
        n = false →
      n.isCurrentUser = true →
      ((selectSequence { graph := g0, selectedNode := sel0, navigationStack := [focus] }
          (p ++ [some n])).navigationStack.map fun m => m.id) = [focus.id] := by
  constructor
  · exact selectSequence_nodup calls _ (by simp)
  · intro p q n hc hguard hcu
    have hmem : some n ∈ calls := by
      rw [hc]
      exact List.mem_append_right _ (List.mem_cons_self _ _)
    have hid : n.id = focus.id := hwf n hmem hcu
    have hsplit :
        selectSequence { graph := g0, selectedNode := sel0, navigationStack := [focus] }
          (p ++ [some n]) =
        handleSelectNode
          (selectSequence { graph := g0, selectedNode := sel0, navigationStack := [focus] } p)
          (some n) := by
      rw [selectSequence, List.foldl_append]
      rfl
    rw [hsplit, handleSelectNode_reset hguard hcu]
    simp [hid]

/-- Witness for C6: selecting `a` and then the focus identity `u`
starting from the seeded stack leaves the duplicate-free stack `[u]`. -/
theorem stack_invariants_witness :
    ((selectSequence
        { graph := { nodes := [mkUser "u"], edges := [] }
          selectedNode := some (mkUser "u")
          navigationStack := [mkUser "u"] }
        [some (mkNode "a"), some (mkUser "u")]).navigationStack.map fun n => n.id).Nodup ∧
    ((selectSequence
        { graph := { nodes := [mkUser "u"], edges := [] }
          selectedNode := some (mkUser "u")
          navigationStack := [mkUser "u"] }
        ([some (mkNode "a")] ++ [some (mkUser "u")])).navigationStack.map fun m => m.id) =
      [(mkUser "u").id] := by
  have h := stack_invariants (mkUser "u") { nodes := [mkUser "u"], edges := [] }
    (some (mkUser "u")) [some (mkNode "a"), some (mkUser "u")]
    (by
      intro n hmem hcu
      simp only [List.mem_cons, List.not_mem_nil, or_false] at hmem
      rcases hmem with hmem | hmem
      · injection hmem with hmem
        subst hmem
        simp [mkNode] at hcu
      · injection hmem with hmem
        subst hmem
        rfl)
  exact ⟨h.1, h.2 [some (mkNode "a")] [] (mkUser "u") rfl (by decide) rfl⟩

lemma resetPrune_mem_nodes (node : GraphNode) (g : GraphData)
    (hend : ∀ e ∈ g.edges,
      (∃ n ∈ g.nodes, n.id = e.source) ∧ (∃ n ∈ g.nodes, n.id = e.target))
    (id : String) :
    (∃ n ∈ (resetPrune node g).nodes, n.id = id) ↔
      (id = node.id ∨ ∃ e ∈ g.edges,
        (e.source = node.id ∧ e.target = id) ∨ (e.target = node.id ∧ e.source = id)) := by
  constructor
  · rintro ⟨n, hn, rfl⟩
    simp only [resetPrune, List.mem_cons, List.mem_filter] at hn
    rcases hn with rfl | ⟨⟨hng, hcontains⟩, hne⟩
    · exact Or.inl rfl
    · have hmemfold := List.elem_iff.mp hcontains
      rw [mem_foldl_resetIdStep] at hmemfold
      rcases hmemfold with hidm | ⟨e, he, hP⟩
      · rw [List.mem_singleton] at hidm
        exact Or.inl hidm
      · exact Or.inr ⟨e, (List.mem_filter.mp he).1,
          hP.imp (fun hx => ⟨hx.1, hx.2.symm⟩) (fun hx => ⟨hx.1, hx.2.symm⟩)⟩
  · intro h
    rcases h with rfl | ⟨e, he, hP⟩
    · exact ⟨node, List.mem_cons_self _ _, rfl⟩
    · by_cases hid : id = node.id
      · exact ⟨node, List.mem_cons_self _ _, hid.symm⟩
      · have hpres : ∃ n ∈ g.nodes, n.id = id := by
          rcases hP with ⟨hs, ht⟩ | ⟨ht, hs⟩
          · obtain ⟨n, hn, hni⟩ := (hend e he).2
            exact ⟨n, hn, by rw [hni, ht]⟩
          · obtain ⟨n, hn, hni⟩ := (hend e he).1
            exact ⟨n, hn, by rw [hni, hs]⟩
        obtain ⟨n, hn, hni⟩ := hpres
        refine ⟨n, ?_, hni⟩
        simp only [resetPrune, List.mem_cons, List.mem_filter]
        right
        have hinc : (e.source == node.id || e.target == node.id) = true := by
          rcases hP with ⟨hs, _⟩ | ⟨ht, _⟩
          · simp [hs]
          · simp [ht]
        refine ⟨⟨hn, ?_⟩, ?_⟩
        · apply List.elem_iff.mpr
          rw [mem_foldl_resetIdStep]
          right
          refine ⟨e, List.mem_filter.mpr ⟨he, hinc⟩, ?_⟩
          rw [hni]
          exact hP.imp (fun hx => ⟨hx.1, hx.2.symm⟩) (fun hx => ⟨hx.1, hx.2.symm⟩)
        · rw [hni]
          simp [hid]

lemma truncatePrune_connected_char (newStack : List GraphNode) (g : GraphData) (y : String) :
    y ∈ (g.edges.filter fun e =>
        (newStack.map fun n => n.id).contains e.source ||
        (newStack.map fun n => n.id).contains e.target).foldl truncIdStep
      (newStack.map fun n => n.id) ↔
      (y ∈ newStack.map fun n => n.id) ∨
      ∃ e ∈ g.edges,
        ((e.source ∈ newStack.map fun n => n.id) ∧ e.target = y) ∨
        ((e.target ∈ newStack.map fun n => n.id) ∧ e.source = y) := by
  rw [mem_foldl_truncIdStep]
  constructor
  · rintro (hy | ⟨e, he, hy⟩)
    · exact Or.inl hy
    · obtain ⟨heg, hinc⟩ := List.mem_filter.mp he
      have hinc2 :
          (e.source ∈ newStack.map fun n => n.id) ∨
          (e.target ∈ newStack.map fun n => n.id) := by
        rcases Bool.or_eq_true_iff.mp hinc with h | h
        · exact Or.inl (List.elem_iff.mp h)
        · exact Or.inr (List.elem_iff.mp h)
      rcases hy with rfl | rfl
      · rcases hinc2 with h | h
        · exact Or.inl h
        · exact Or.inr ⟨e, heg, Or.inr ⟨h, rfl⟩⟩
      · rcases hinc2 with h | h
        · exact Or.inr ⟨e, heg, Or.inl ⟨h, rfl⟩⟩
        · exact Or.inl h
  · rintro (hy | ⟨e, heg, hP⟩)
    · exact Or.inl hy
    · right
      rcases hP with ⟨hs, ht⟩ | ⟨ht, hs⟩
      · refine ⟨e, List.mem_filter.mpr ⟨heg, ?_⟩, Or.inr ht.symm⟩
        rw [Bool.or_eq_true_iff]
        exact Or.inl (List.elem_iff.mpr hs)
      · refine ⟨e, List.mem_filter.mpr ⟨heg, ?_⟩, Or.inl hs.symm⟩
        rw [Bool.or_eq_true_iff]
        exact Or.inr (List.elem_iff.mpr ht)

lemma truncatePrune_mem_nodes (newStack : List GraphNode) (g : GraphData)
    (hstack : ∀ m ∈ newStack, ∃ n ∈ g.nodes, n.id = m.id)
    (hend : ∀ e ∈ g.edges,
      (∃ n ∈ g.nodes, n.id = e.source) ∧ (∃ n ∈ g.nodes, n.id = e.target))
    (id : String) :
    (∃ n ∈ (truncatePrune newStack g).nodes, n.id = id) ↔
      ((id ∈ newStack.map fun n => n.id) ∨
       ∃ e ∈ g.edges,
         ((e.source ∈ newStack.map fun n => n.id) ∧ e.target = id) ∨
         ((e.target ∈ newStack.map fun n => n.id) ∧ e.source = id)) := by
  constructor
  · rintro ⟨n, hn, rfl⟩
    simp only [truncatePrune, List.mem_filter] at hn
    obtain ⟨hng, hcont⟩ := hn
    exact (truncatePrune_connected_char newStack g n.id).mp (List.elem_iff.mp hcont)
  · intro h
    have hpres : ∃ n ∈ g.nodes, n.id = id := by
      rcases h with hid | ⟨e, he, hP⟩
      · obtain ⟨m, hm, hmid⟩ := List.mem_map.mp hid
        obtain ⟨n, hn, hni⟩ := hstack m hm
        exact ⟨n, hn, by rw [hni, hmid]⟩
      · rcases hP with ⟨hs, ht⟩ | ⟨ht, hs⟩
        · obtain ⟨n, hn, hni⟩ := (hend e he).2
          exact ⟨n, hn, by rw [hni, ht]⟩
        · obtain ⟨n, hn, hni⟩ := (hend e he).1
          exact ⟨n, hn, by rw [hni, hs]⟩
    obtain ⟨n, hn, hni⟩ := hpres
    refine ⟨n, ?_, hni⟩
    simp only [truncatePrune, List.mem_filter]
    refine ⟨hn, List.elem_iff.mpr ?_⟩
    rw [truncatePrune_connected_char newStack g n.id, hni]
    exact h

lemma truncatePrune_edges (newStack : List GraphNode) (g : GraphData) :
    (truncatePrune newStack g).edges =
      g.edges.filter fun e =>
        (newStack.map fun n => n.id).contains e.source ||
        (newStack.map fun n => n.id).contains e.target := rfl

/-- C2.  A non-skipped selection of the current-user node `u` resets
the stack to `[u]` and prunes the graph to exactly `u` plus its one-hop
neighbourhood in the current edge set: a node id is present afterwards
precisely when it is `u` or a direct neighbour of `u`, and the edges
are reduced to exactly those incident to `u`.  The hypothesis `hend`
states that current edges reference existing nodes, as every modelled
store update guarantees. -/
theorem selectIdentity_reset_prunes (st : ProviderState) (u : GraphNode)
    (hcu : u.isCurrentUser = true)
    (hguard : sameAsSelected st u = false)
    (hend : ∀ e ∈ st.graph.edges,
      (∃ n ∈ st.graph.nodes, n.id = e.source) ∧ (∃ n ∈ st.graph.nodes, n.id = e.target)) :
    (handleSelectNode st (some u)).navigationStack = [u] ∧
    (∀ id : String,
      (∃ n ∈ (handleSelectNode st (some u)).graph.nodes, n.id = id) ↔
        (id = u.id ∨ ∃ e ∈ st.graph.edges,
          (e.source = u.id ∧ e.target = id) ∨ (e.target = u.id ∧ e.source = id))) ∧
    (handleSelectNode st (some u)).graph.edges =
      st.graph.edges.filter fun e => e.source == u.id || e.target == u.id := by
  have hsel := handleSelectNode_reset hguard hcu
  refine ⟨by rw [hsel], ?_, ?_⟩
  · intro id
    rw [hsel]
    exact resetPrune_mem_nodes u st.graph hend id
  · rw [hsel]
    rfl

/-- Witness for C2: resetting onto `u` from a three-node graph with one
edge `u -> a` keeps exactly `u` and `a` (the stray node `b` goes) and
keeps exactly the edge incident to `u`. -/
theorem selectIdentity_reset_prunes_witness :
    (handleSelectNode
      { graph := { nodes := [mkUser "u", mkNode "a", mkNode "b"]
                   edges := [mkEdge "u" "a"] }
        selectedNode := some (mkNode "b")
        navigationStack := [mkUser "u", mkNode "a", mkNode "b"] }
      (some (mkUser "u"))).navigationStack = [mkUser "u"] ∧
    ((∃ n ∈ (handleSelectNode
      { graph := { nodes := [mkUser "u", mkNode "a", mkNode "b"]
                   edges := [mkEdge "u" "a"] }
        selectedNode := some (mkNode "b")
        navigationStack := [mkUser "u", mkNode "a", mkNode "b"] }
      (some (mkUser "u"))).graph.nodes, n.id = "b") ↔
      ("b" = (mkUser "u").id ∨ ∃ e ∈ [mkEdge "u" "a"],
        (e.source = (mkUser "u").id ∧ e.target = "b") ∨
        (e.target = (mkUser "u").id ∧ e.source = "b"))) ∧
    (handleSelectNode
      { graph := { nodes := [mkUser "u", mkNode "a", mkNode "b"]
                   edges := [mkEdge "u" "a"] }
        selectedNode := some (mkNode "b")
        navigationStack := [mkUser "u", mkNode "a", mkNode "b"] }
      (some (mkUser "u"))).graph.edges =
      List.filter (fun e => e.source == (mkUser "u").id || e.target == (mkUser "u").id)
        [mkEdge "u" "a"] := by
  have h := selectIdentity_reset_prunes
    { graph := { nodes := [mkUser "u", mkNode "a", mkNode "b"]
                 edges := [mkEdge "u" "a"] }
      selectedNode := some (mkNode "b")
      navigationStack := [mkUser "u", mkNode "a", mkNode "b"] }
    (mkUser "u") rfl (by decide) (by decide)
  exact ⟨h.1, h.2.1 "b", h.2.2⟩

/-- C1.  With navigation stack `[A, B, C, D]`, a non-skipped selection
of `B` (not the current-user node) truncates the stack to `[A, B]` and
prunes the graph to exactly the stack members plus their direct
neighbours: a node id is present afterwards precisely when it is `A.id`,
`B.id`, or connected to one of them by a current edge, and every
previously present node outside that set is removed.  The presence
hypotheses record that the stack members and the edge endpoints exist
as nodes of the graph, as every modelled store update guarantees. -/
theorem selectIdentity_truncate_prunes (st : ProviderState) (A B C D : GraphNode)
    (hstack : st.navigationStack = [A, B, C, D])
    (hAB : A.id ≠ B.id)
    (hBcu : B.isCurrentUser = false)
    (hguard : sameAsSelected st B = false)
    (hApres : ∃ n ∈ st.graph.nodes, n.id = A.id)
    (hBpres : ∃ n ∈ st.graph.nodes, n.id = B.id)
    (hend : ∀ e ∈ st.graph.edges,
      (∃ n ∈ st.graph.nodes, n.id = e.source) ∧ (∃ n ∈ st.graph.nodes, n.id = e.target)) :
    (handleSelectNode st (some B)).navigationStack = [A, B] ∧
    (∀ id : String,
      (∃ n ∈ (handleSelectNode st (some B)).graph.nodes, n.id = id) ↔
        (id = A.id ∨ id = B.id ∨
         ∃ e ∈ st.graph.edges,
           ((e.source = A.id ∨ e.source = B.id) ∧ e.target = id) ∨
           ((e.target = A.id ∨ e.target = B.id) ∧ e.source = id))) ∧
    (∀ n ∈ st.graph.nodes,
      ¬ (n.id = A.id ∨ n.id = B.id ∨
         ∃ e ∈ st.graph.edges,
           ((e.source = A.id ∨ e.source = B.id) ∧ e.target = n.id) ∨
           ((e.target = A.id ∨ e.target = B.id) ∧ e.source = n.id)) →
      n ∉ (handleSelectNode st (some B)).graph.nodes) := by
  have hABfalse : (A.id == B.id) = false := beq_eq_false_iff_ne.mpr hAB
  have hkidx : findIndex (fun m => m.id == B.id) st.navigationStack = some 1 := by
    rw [hstack]
    simp [findIndex, hABfalse]
  have hsel := handleSelectNode_trunc hguard hBcu hkidx
  have htake : st.navigationStack.take (1 + 1) = [A, B] := by
    rw [hstack]
    rfl
  have hstackpres : ∀ m ∈ [A, B], ∃ n ∈ st.graph.nodes, n.id = m.id := by
    intro m hm
    rcases List.mem_cons.mp hm with rfl | hm
    · exact hApres
    · rcases List.mem_singleton.mp hm with rfl
      exact hBpres
  have hchar := truncatePrune_mem_nodes [A, B] st.graph hstackpres hend
  have hiff : ∀ id : String,
      (∃ n ∈ (handleSelectNode st (some B)).graph.nodes, n.id = id) ↔
        (id = A.id ∨ id = B.id ∨
         ∃ e ∈ st.graph.edges,
           ((e.source = A.id ∨ e.source = B.id) ∧ e.target = id) ∨
           ((e.target = A.id ∨ e.target = B.id) ∧ e.source = id)) := by
    intro id
    rw [hsel]
    dsimp only
    rw [htake]
    rw [hchar id]
    simp only [List.map_cons, List.map_nil, List.mem_cons, List.mem_singleton,
      List.not_mem_nil, or_false]
    constructor
    · rintro ((h1 | h1) | ⟨e, he, hP⟩)
      · exact Or.inl h1
      · exact Or.inr (Or.inl h1)
      · exact Or.inr (Or.inr ⟨e, he, hP⟩)
    · rintro (h1 | h1 | ⟨e, he, hP⟩)
      · exact Or.inl (Or.inl h1)
      · exact Or.inl (Or.inr h1)
      · exact Or.inr ⟨e, he, hP⟩
  refine ⟨?_, hiff, ?_⟩
  · rw [hsel]
    dsimp only
    exact htake
  · intro n hn hnot hmem
    exact hnot ((hiff n.id).mp ⟨n, hmem, rfl⟩)

/-- Witness for C1: with stack `[a, b, c, d]`, edges `b -> x` and
`c -> z`, selecting `b` truncates the stack to `[a, b]`; the neighbour
`x` of `b` is kept and the characterisation also shows `z` (a neighbour
only of the dropped `c`) is not present afterwards. -/
theorem selectIdentity_truncate_prunes_witness :
    (handleSelectNode
      { graph := { nodes := [mkNode "a", mkNode "b", mkNode "c", mkNode "d",
                             mkNode "x", mkNode "z"]
                   edges := [mkEdge "b" "x", mkEdge "c" "z"] }
        selectedNode := some (mkNode "d")
        navigationStack := [mkNode "a", mkNode "b", mkNode "c", mkNode "d"] }
      (some (mkNode "b"))).navigationStack = [mkNode "a", mkNode "b"] ∧
    (∃ n ∈ (handleSelectNode
      { graph := { nodes := [mkNode "a", mkNode "b", mkNode "c", mkNode "d",
                             mkNode "x", mkNode "z"]
                   edges := [mkEdge "b" "x", mkEdge "c" "z"] }
        selectedNode := some (mkNode "d")
        navigationStack := [mkNode "a", mkNode "b", mkNode "c", mkNode "d"] }
      (some (mkNode "b"))).graph.nodes, n.id = "x") ∧
    mkNode "z" ∉ (handleSelectNode
      { graph := { nodes := [mkNode "a", mkNode "b", mkNode "c", mkNode "d",
                             mkNode "x", mkNode "z"]
                   edges := [mkEdge "b" "x", mkEdge "c" "z"] }
        selectedNode := some (mkNode "d")
        navigationStack := [mkNode "a", mkNode "b", mkNode "c", mkNode "d"] }
      (some (mkNode "b"))).graph.nodes := by
  have h := selectIdentity_truncate_prunes
    { graph := { nodes := [mkNode "a", mkNode "b", mkNode "c", mkNode "d",
                           mkNode "x", mkNode "z"]
                 edges := [mkEdge "b" "x", mkEdge "c" "z"] }
      selectedNode := some (mkNode "d")
      navigationStack := [mkNode "a", mkNode "b", mkNode "c", mkNode "d"] }
    (mkNode "a") (mkNode "b") (mkNode "c") (mkNode "d")
    rfl (by decide) rfl (by decide) (by decide) (by decide) (by decide)
  refine ⟨h.1, ?_, ?_⟩
  · exact (h.2.1 "x").mpr (by decide)
  · exact h.2.2 (mkNode "z") (by decide) (by decide)
